import Mathlib

/-!
Shallow embedding of the TrueLayer payouts-api-signing example
(`src/rust/src/main.rs`): a JWS signer using the ES512 scheme.

Rust strings and byte buffers are modelled as `List Nat` (each element a
byte value `< 256`; the produced JWS segments are ASCII).  The openssl
primitives (SHA-512, ECDSA signing) are abstract oracles carried in a
structure, since their internals are external to this repository; the
curve check, padding, base64 encoding and JWS assembly are translated
from the source.
-/

namespace Payouts

/-- Checked subtraction, modelling Rust `usize` subtraction which panics
on underflow (`66 - r.len()` in `sign_es512`). -/
def checked_sub (a b : Nat) : Option Nat :=
  if b ≤ a then some (a - b) else none

/-- Minimal big-endian byte encoding of a natural number, modelling
openssl `BigNum::to_vec` (`structured_signature.r().to_vec()`); the
encoding of `0` is empty. -/
def natToBE (n : Nat) : List Nat :=
  if n = 0 then [] else natToBE (n / 256) ++ [n % 256]
  decreasing_by exact Nat.div_lt_self (Nat.pos_of_ne_zero (by assumption)) (by omega)

/-- Interpret a byte list as a big-endian natural number. -/
def beToNat (l : List Nat) : Nat :=
  l.foldl (fun acc b => acc * 256 + b) 0

/-- The padding step of `sign_es512`:
`signature_bytes.extend(std::iter::repeat(0x00).take(66 - r.len()))`
followed by `signature_bytes.extend(r)`.  The length subtraction is
`usize` subtraction, so underflow (a panic in Rust) is modelled as
`none`. -/
def padTo66 (bytes : List Nat) : Option (List Nat) :=
  match checked_sub 66 bytes.length with
  | some k => some (List.replicate k 0 ++ bytes)
  | none => none

/-- The URL-safe base64 alphabet of RFC 7515 section 2, as a byte-valued
function on sextet values (`base64::URL_SAFE_NO_PAD` character set). -/
def encChar (n : Nat) : Nat :=
  if n < 26 then 65 + n
  else if n < 52 then 97 + (n - 26)
  else if n < 62 then 48 + (n - 52)
  else if n = 62 then 45
  else 95

/-- Inverse of `encChar`: the sextet value of an alphabet byte, `none`
for a byte outside the URL-safe alphabet. -/
def decChar (c : Nat) : Option Nat :=
  if 65 ≤ c ∧ c ≤ 90 then some (c - 65)
  else if 97 ≤ c ∧ c ≤ 122 then some (c - 97 + 26)
  else if 48 ≤ c ∧ c ≤ 57 then some (c - 48 + 52)
  else if c = 45 then some 62
  else if c = 95 then some 63
  else none

/-- `base64_encode`: URL-safe base64 without padding
(`base64::encode_config(payload, URL_SAFE_NO_PAD)`), processing input
bytes in groups of three. -/
def base64_encode : List Nat → List Nat
  | [] => []
  | [b0] => [encChar (b0 / 4), encChar (b0 % 4 * 16)]
  | [b0, b1] =>
      [encChar (b0 / 4), encChar (b0 % 4 * 16 + b1 / 16), encChar (b1 % 16 * 4)]
  | b0 :: b1 :: b2 :: rest =>
      encChar (b0 / 4) :: encChar (b0 % 4 * 16 + b1 / 16) ::
        encChar (b1 % 16 * 4 + b2 / 64) :: encChar (b2 % 64) :: base64_encode rest

/-- A URL-safe base64 decoder tolerating missing padding: decodes
groups of four alphabet bytes to three output bytes, and a final group
of two or three alphabet bytes to one or two output bytes.  `none` on a
byte outside the alphabet or a leftover group of a single byte. -/
def base64_decode : List Nat → Option (List Nat)
  | [] => some []
  | [_] => none
  | [c0, c1] => do
      let v0 ← decChar c0
      let v1 ← decChar c1
      pure [v0 * 4 + v1 / 16]
  | [c0, c1, c2] => do
      let v0 ← decChar c0
      let v1 ← decChar c1
      let v2 ← decChar c2
      pure [v0 * 4 + v1 / 16, v1 % 16 * 16 + v2 / 4]
  | c0 :: c1 :: c2 :: c3 :: rest => do
      let v0 ← decChar c0
      let v1 ← decChar c1
      let v2 ← decChar c2
      let v3 ← decChar c3
      let tail ← base64_decode rest
      pure ((v0 * 4 + v1 / 16) :: (v1 % 16 * 16 + v2 / 4) :: (v2 % 4 * 64 + v3) :: tail)

/-- Membership in the URL-safe base64 alphabet:
`A`-`Z`, `a`-`z`, `0`-`9`, `-`, `_` as byte values. -/
def isB64Byte (b : Nat) : Prop :=
  (65 ≤ b ∧ b ≤ 90) ∨ (97 ≤ b ∧ b ≤ 122) ∨ (48 ≤ b ∧ b ≤ 57) ∨ b = 45 ∨ b = 95

instance (b : Nat) : Decidable (isB64Byte b) := by
  unfold isB64Byte; infer_instance

/-- Decimal digit bytes of a natural number, most significant first
(the integer formatting used by `serde_json` when writing a number). -/
def natDigits (n : Nat) : List Nat :=
  if n < 10 then [48 + n] else natDigits (n / 10) ++ [48 + n % 10]
  decreasing_by exact Nat.div_lt_self (by omega) (by omega)

/-- Decimal byte rendering of an integer, with a leading `-` byte when
negative. -/
def intBytes : Int → List Nat
  | Int.ofNat n => natDigits n
  | Int.negSucc n => 45 :: natDigits (n + 1)

/-- Hexadecimal digit byte (lowercase), used in `\uOOXX` escapes. -/
def hexDigit (n : Nat) : Nat :=
  if n < 10 then 48 + n else 97 + (n - 10)

/-- The `serde_json` escaping of one string byte: `"` and backslash get
a backslash escape, control bytes below `0x20` get their short escape
or a `\uOOXX` escape, every other byte is passed through. -/
def escapeByte (b : Nat) : List Nat :=
  if b = 34 then [92, 34]
  else if b = 92 then [92, 92]
  else if b = 8 then [92, 98]
  else if b = 9 then [92, 116]
  else if b = 10 then [92, 110]
  else if b = 12 then [92, 102]
  else if b = 13 then [92, 114]
  else if b < 32 then [92, 117, 48, 48, hexDigit (b / 16), hexDigit (b % 16)]
  else [b]

/-- Escape every byte of a JSON string body. -/
def escapeStr : List Nat → List Nat
  | [] => []
  | b :: rest => escapeByte b ++ escapeStr rest

/-- The `serde_json::Value` data model (numbers restricted to integers;
object fields are kept in the order the serializer will emit them, see
`mapInsert`). -/
inductive Value where
  | null : Value
  | bool (b : Bool) : Value
  | num (n : Int) : Value
  | str (s : List Nat) : Value
  | arr (items : List Value) : Value
  | obj (fields : List (List Nat × Value)) : Value

/-- Strict lexicographic byte-list order, the key order of the
`BTreeMap` backing `serde_json::Map`. -/
def lexLt : List Nat → List Nat → Bool
  | [], [] => false
  | [], _ :: _ => true
  | _ :: _, [] => false
  | a :: as, b :: bs => if a < b then true else if a = b then lexLt as bs else false

/-- Ordered-map insertion modelling `BTreeMap::insert`: keeps the field
list sorted by `lexLt` on keys and replaces an equal key. -/
def mapInsert (k : List Nat) (v : Value) :
    List (List Nat × Value) → List (List Nat × Value)
  | [] => [(k, v)]
  | (k2, v2) :: rest =>
      if lexLt k k2 then (k, v) :: (k2, v2) :: rest
      else if k = k2 then (k, v) :: rest
      else (k2, v2) :: mapInsert k v rest

/-- Build a `serde_json::Map` from fields in source order, as the
`json!` macro does: successive `BTreeMap` insertions. -/
def mapBuild (fields : List (List Nat × Value)) : List (List Nat × Value) :=
  fields.foldl (fun m kv => mapInsert kv.1 kv.2 m) []

mutual

/-- `serde_json::to_string`: compact serialization of a `Value`, no
insignificant whitespace. -/
def serialize : Value → List Nat
  | Value.null => [110, 117, 108, 108]
  | Value.bool true => [116, 114, 117, 101]
  | Value.bool false => [102, 97, 108, 115, 101]
  | Value.num n => intBytes n
  | Value.str s => [34] ++ escapeStr s ++ [34]
  | Value.arr items => [91] ++ serializeItems items ++ [93]
  | Value.obj fields => [123] ++ serializeFields fields ++ [125]

/-- Comma-separated serialization of array items. -/
def serializeItems : List Value → List Nat
  | [] => []
  | [v] => serialize v
  | v :: rest => serialize v ++ [44] ++ serializeItems rest

/-- Comma-separated serialization of object fields as
`"key":value` pairs. -/
def serializeFields : List (List Nat × Value) → List Nat
  | [] => []
  | [(k, v)] => [34] ++ escapeStr k ++ [34, 58] ++ serialize v
  | (k, v) :: rest =>
      [34] ++ escapeStr k ++ [34, 58] ++ serialize v ++ [44] ++ serializeFields rest

end

/-- Byte list of an ASCII string literal. -/
def strBytes (s : String) : List Nat :=
  s.toList.map Char.toNat

/-- Curve identifiers (`openssl::nid::Nid`), restricted to the curves
the example discusses. -/
inductive Nid where
  | SECP521R1 : Nid
  | X9_62_PRIME256V1 : Nid
  | SECP256K1 : Nid
deriving DecidableEq

/-- An elliptic-curve private key handle: the embedding only exposes
what the source inspects, `pkey.group().curve_name()`. -/
structure EcKey where
  curveName : Option Nid

/-- The openssl collaborators used by `sign_es512`: the SHA-512 digest
and the ECDSA signing primitive.  `ecdsaSign` returns the signature
integers `(r, s)` of `EcdsaSig::sign`, or `none` when openssl errors;
it is a parameter because ECDSA signing is randomized and external. -/
structure Openssl where
  sha512 : List Nat → List Nat
  ecdsaSign : List Nat → EcKey → Option (Nat × Nat)

/-- Failure modes of the signing path: the explicit curve-mismatch
error of `sign_es512`, a propagated openssl error, and the Rust panic
on `usize` underflow in the padding step. -/
inductive SignError where
  | curveMismatch : SignError
  | opensslError : SignError
  | padUnderflow : SignError
deriving DecidableEq

/-- `sign_es512`: check the curve is P-521, hash the payload with
SHA-512, ECDSA-sign the digest, pad `r` and `s` to 66 bytes each and
base64url-encode the 132-byte concatenation. -/
def sign_es512 (o : Openssl) (payload : List Nat) (pkey : EcKey) :
    Except SignError (List Nat) :=
  if pkey.curveName ≠ some Nid.SECP521R1 then
    Except.error SignError.curveMismatch
  else
    let hash := o.sha512 payload
    match o.ecdsaSign hash pkey with
    | none => Except.error SignError.opensslError
    | some (rInt, sInt) =>
        let r := natToBE rInt
        let s := natToBE sInt
        match padTo66 r, padTo66 s with
        | some rPadded, some sPadded =>
            Except.ok (base64_encode (rPadded ++ sPadded))
        | _, _ => Except.error SignError.padUnderflow

/-- `get_jws`: build the signing input
`base64url(header) . base64url(payload)`, sign it with ES512, and emit
the three-segment compact JWS (the header and payload encodings are
recomputed for the final string exactly as in the source). -/
def get_jws (o : Openssl) (jws_header : Value) (jws_payload : List Nat)
    (pkey : EcKey) : Except SignError (List Nat) :=
  let to_be_signed :=
    base64_encode (serialize jws_header) ++ [46] ++ base64_encode jws_payload
  match sign_es512 o to_be_signed pkey with
  | Except.error e => Except.error e
  | Except.ok signature =>
      Except.ok (base64_encode (serialize jws_header) ++ [46] ++
        base64_encode jws_payload ++ [46] ++ signature)

/-- The JWS header built in `main`:
`json!(\x7b "alg": "ES512", "kid": options.certificate_id.to_string() \x7d)`. -/
def jws_header (kid : List Nat) : Value :=
  Value.obj (mapBuild
    [(strBytes "alg", Value.str (strBytes "ES512")),
     (strBytes "kid", Value.str kid)])

/-- Rust `str::split` on a single separator byte: the list of chunks
between separators, always nonempty. -/
def splitByte (sep : Nat) : List Nat → List (List Nat)
  | [] => [[]]
  | b :: rest =>
      if b = sep then [] :: splitByte sep rest
      else
        match splitByte sep rest with
        | [] => [[b]]
        | cur :: more => (b :: cur) :: more

/-- The detach step of `main`: split the compact JWS on `.` and return
`parts[0] ++ ".." ++ parts[2]`; the Rust indexing panics when a part is
missing, modelled as `none`. -/
def detach (jws : List Nat) : Option (List Nat) :=
  let parts := splitByte 46 jws
  match parts.get? 0, parts.get? 2 with
  | some p0, some p2 => some (p0 ++ [46, 46] ++ p2)
  | _, _ => none

/-! ### Lemmas about the base64url codec -/

/-- Every byte `encChar` produces lies in the URL-safe alphabet. -/
theorem encChar_isB64 (n : Nat) : isB64Byte (encChar n) := by
  unfold encChar isB64Byte
  split_ifs <;> omega

/-- An alphabet byte is never the separator `.` (byte 46). -/
theorem isB64Byte_ne_dot {b : Nat} (h : isB64Byte b) : b ≠ 46 := by
  unfold isB64Byte at h; omega

/-- An alphabet byte is never the padding character `=` (byte 61). -/
theorem isB64Byte_ne_pad {b : Nat} (h : isB64Byte b) : b ≠ 61 := by
  unfold isB64Byte at h; omega

/-- Every byte of a `base64_encode` output lies in the URL-safe
alphabet. -/
theorem mem_base64_encode_isB64 (b : List Nat) :
    ∀ c ∈ base64_encode b, isB64Byte c := by
  induction b using base64_encode.induct with
  | case1 => intro c hc; simp [base64_encode] at hc
  | case2 b0 =>
      intro c hc
      simp [base64_encode] at hc
      rcases hc with h | h <;> exact h ▸ encChar_isB64 _
  | case3 b0 b1 =>
      intro c hc
      simp [base64_encode] at hc
      rcases hc with h | h | h <;> exact h ▸ encChar_isB64 _
  | case4 b0 b1 b2 rest ih =>
      intro c hc
      simp only [base64_encode, List.mem_cons] at hc
      rcases hc with h | h | h | h | h
      · exact h ▸ encChar_isB64 _
      · exact h ▸ encChar_isB64 _
      · exact h ▸ encChar_isB64 _
      · exact h ▸ encChar_isB64 _
      · exact ih c h

/-- The separator byte `.` never occurs in a `base64_encode` output. -/
theorem dot_not_mem_base64 (b : List Nat) : 46 ∉ base64_encode b := by
  intro h
  exact isB64Byte_ne_dot (mem_base64_encode_isB64 b 46 h) rfl

/-- `decChar` inverts `encChar` on sextet values. -/
theorem decChar_encChar : ∀ n, n < 64 → decChar (encChar n) = some n := by
  decide

/-- Decoding a `base64_encode` output recovers the input bytes. -/
theorem base64_decode_encode (b : List Nat) (hb : ∀ x ∈ b, x < 256) :
    base64_decode (base64_encode b) = some b := by
  induction b using base64_encode.induct with
  | case1 => rfl
  | case2 b0 =>
      have h0 : b0 < 256 := hb b0 (by simp)
      simp only [base64_encode, base64_decode]
      rw [decChar_encChar _ (by omega), decChar_encChar _ (by omega)]
      simp only [Option.bind_eq_bind, Option.some_bind, pure]
      congr 2
      omega
  | case3 b0 b1 =>
      have h0 : b0 < 256 := hb b0 (by simp)
      have h1 : b1 < 256 := hb b1 (by simp)
      simp only [base64_encode, base64_decode]
      rw [decChar_encChar _ (by omega), decChar_encChar _ (by omega),
        decChar_encChar _ (by omega)]
      simp only [Option.bind_eq_bind, Option.some_bind, pure]
      congr 1
      congr 2
      · omega
      · omega
  | case4 b0 b1 b2 rest ih =>
      have h0 : b0 < 256 := hb b0 (by simp)
      have h1 : b1 < 256 := hb b1 (by simp)
      have h2 : b2 < 256 := hb b2 (by simp)
      have hrest : ∀ x ∈ rest, x < 256 := fun x hx => hb x (by simp [hx])
      simp only [base64_encode, base64_decode]
      rw [decChar_encChar _ (by omega), decChar_encChar _ (by omega),
        decChar_encChar _ (by omega), decChar_encChar _ (by omega), ih hrest]
      simp only [Option.bind_eq_bind, Option.some_bind, pure]
      congr 2
      · omega
      · congr 1
        · omega
        · congr 1
          omega

/-- `base64_encode` maps a nonempty input to a nonempty output. -/
theorem base64_encode_ne_nil {b : List Nat} (h : b ≠ []) :
    base64_encode b ≠ [] := by
  match b with
  | [] => exact absurd rfl h
  | [b0] => simp [base64_encode]
  | [b0, b1] => simp [base64_encode]
  | b0 :: b1 :: b2 :: rest => simp [base64_encode]

/-! ### Lemmas about big-endian encodings and padding -/

/-- `beToNat` over a byte list starting from accumulator `a`. -/
theorem beToNat_foldl (a : Nat) (l : List Nat) :
    l.foldl (fun acc b => acc * 256 + b) a = a * 256 ^ l.length + beToNat l := by
  induction l generalizing a with
  | nil => simp [beToNat]
  | cons b rest ih =>
      simp only [List.foldl_cons, List.length_cons, beToNat]
      rw [ih (a * 256 + b), ih (0 * 256 + b)]
      ring

/-- `beToNat` of a concatenation. -/
theorem beToNat_append (l1 l2 : List Nat) :
    beToNat (l1 ++ l2) = beToNat l1 * 256 ^ l2.length + beToNat l2 := by
  unfold beToNat
  rw [List.foldl_append]
  exact beToNat_foldl _ l2

/-- Leading zero bytes do not change the big-endian value. -/
theorem beToNat_replicate_zero (k : Nat) (l : List Nat) :
    beToNat (List.replicate k 0 ++ l) = beToNat l := by
  rw [beToNat_append]
  have hz : beToNat (List.replicate k 0) = 0 := by
    induction k with
    | zero => rfl
    | succ k ih =>
        rw [List.replicate_succ, beToNat, List.foldl_cons]
        simpa [beToNat] using ih
  simp [hz]

/-- `beToNat` inverts `natToBE`. -/
theorem beToNat_natToBE (n : Nat) : beToNat (natToBE n) = n := by
  induction n using natToBE.induct with
  | case1 => rw [natToBE]; simp [beToNat]
  | case2 n hn ih =>
      rw [natToBE, if_neg hn, beToNat_append, ih]
      simp [beToNat]
      omega

/-- Every byte of a `natToBE` encoding is a byte value. -/
theorem natToBE_mem_lt (n : Nat) : ∀ x ∈ natToBE n, x < 256 := by
  induction n using natToBE.induct with
  | case1 => rw [natToBE]; simp
  | case2 n hn ih =>
      rw [natToBE, if_neg hn]
      intro x hx
      rcases List.mem_append.mp hx with h | h
      · exact ih x h
      · simp at h; omega

/-- A number below `256 ^ k` encodes in at most `k` bytes. -/
theorem natToBE_length_le (k : Nat) :
    ∀ n, n < 256 ^ k → (natToBE n).length ≤ k := by
  induction k with
  | zero =>
      intro n hn
      have : n = 0 := by simpa using hn
      subst this
      rw [natToBE]; simp
  | succ k ih =>
      intro n hn
      by_cases h0 : n = 0
      · subst h0; rw [natToBE]; simp
      · rw [natToBE, if_neg h0]
        have : n / 256 < 256 ^ k := by
          rw [Nat.div_lt_iff_lt_mul (by omega)]
          calc n < 256 ^ (k + 1) := hn
            _ = 256 ^ k * 256 := by ring
        have := ih (n / 256) this
        simp
        omega

/-- The strict bound P-521 supplies: `2 ^ 521 ≤ 256 ^ 66`. -/
theorem pow521_le_pow66 : (2 : Nat) ^ 521 ≤ 256 ^ 66 := by
  have h : (256 : Nat) ^ 66 = 2 ^ 528 := by
    rw [show (256 : Nat) = 2 ^ 8 from rfl, ← pow_mul]
  rw [h]
  exact Nat.pow_le_pow_right (by omega) (by omega)

/-- A signature integer below `2 ^ 521` encodes in at most 66 bytes. -/
theorem natToBE_length_le_66 {n : Nat} (h : n < 2 ^ 521) :
    (natToBE n).length ≤ 66 :=
  natToBE_length_le 66 n (lt_of_lt_of_le h pow521_le_pow66)

/-- Padding succeeds exactly on inputs of at most 66 bytes. -/
theorem padTo66_of_le {bytes : List Nat} (h : bytes.length ≤ 66) :
    padTo66 bytes = some (List.replicate (66 - bytes.length) 0 ++ bytes) := by
  unfold padTo66 checked_sub
  rw [if_pos h]

/-- Padding underflows (a Rust panic) exactly on inputs longer than 66
bytes. -/
theorem padTo66_of_gt {bytes : List Nat} (h : 66 < bytes.length) :
    padTo66 bytes = none := by
  unfold padTo66 checked_sub
  rw [if_neg (by omega)]

/-- A successful padding output is exactly 66 bytes long. -/
theorem padTo66_length {bytes : List Nat} (h : bytes.length ≤ 66) :
    (List.replicate (66 - bytes.length) 0 ++ bytes).length = 66 := by
  simp
  omega

/-! ### Lemmas about JSON serialization -/

/-- `natDigits` always emits at least one digit. -/
theorem natDigits_ne_nil (n : Nat) : natDigits n ≠ [] := by
  rw [natDigits]
  split <;> simp

/-- `intBytes` is never empty. -/
theorem intBytes_ne_nil (n : Int) : intBytes n ≠ [] := by
  cases n with
  | ofNat m => exact natDigits_ne_nil m
  | negSucc m => simp [intBytes]

/-- Serializing any JSON value yields a nonempty string. -/
theorem serialize_ne_nil (v : Value) : serialize v ≠ [] := by
  cases v with
  | null => simp [serialize]
  | bool b => cases b <;> simp [serialize]
  | num n => exact intBytes_ne_nil n
  | str s => simp [serialize]
  | arr items => simp [serialize]
  | obj fields => simp [serialize]

/-- Bytes of a UUID string rendering (`Uuid::to_string`): lowercase hex
digits and hyphens. -/
def isUuidByte (b : Nat) : Prop :=
  (48 ≤ b ∧ b ≤ 57) ∨ (97 ≤ b ∧ b ≤ 102) ∨ b = 45

instance (b : Nat) : Decidable (isUuidByte b) := by
  unfold isUuidByte; infer_instance

/-- A byte needing no JSON escape passes through `escapeByte`. -/
theorem escapeByte_id {b : Nat} (h32 : 32 ≤ b) (h34 : b ≠ 34) (h92 : b ≠ 92) :
    escapeByte b = [b] := by
  unfold escapeByte
  split_ifs <;> first | rfl | omega

/-- UUID bytes need no JSON escaping. -/
theorem escapeByte_id_of_uuid {b : Nat} (h : isUuidByte b) :
    escapeByte b = [b] := by
  unfold isUuidByte at h
  exact escapeByte_id (by omega) (by omega) (by omega)

/-- A string of escape-free bytes is serialized verbatim. -/
theorem escapeStr_id {s : List Nat} (h : ∀ b ∈ s, escapeByte b = [b]) :
    escapeStr s = s := by
  induction s with
  | nil => rfl
  | cons b rest ih =>
      rw [escapeStr, h b (by simp), ih (fun x hx => h x (by simp [hx]))]
      rfl

/-! ### Lemmas about splitting and detaching -/

/-- Splitting a separator-free chunk yields that single chunk. -/
theorem splitByte_not_mem {sep : Nat} {l : List Nat} (h : sep ∉ l) :
    splitByte sep l = [l] := by
  induction l with
  | nil => rfl
  | cons b rest ih =>
      have hb : b ≠ sep := fun hbs => h (by simp [hbs])
      rw [splitByte, if_neg hb, ih (fun hm => h (by simp [hm]))]

/-- Splitting peels off a leading separator-free chunk. -/
theorem splitByte_append {sep : Nat} {a : List Nat} (rest : List Nat)
    (h : sep ∉ a) :
    splitByte sep (a ++ sep :: rest) = a :: splitByte sep rest := by
  induction a with
  | nil => simp [splitByte]
  | cons b a2 ih =>
      have hb : b ≠ sep := fun hbs => h (by simp [hbs])
      rw [List.cons_append, splitByte, if_neg hb,
        ih (fun hm => h (by simp [hm]))]

/-- Splitting a three-segment string on its separator. -/
theorem splitByte_three {sep : Nat} {a b c : List Nat}
    (ha : sep ∉ a) (hb : sep ∉ b) (hc : sep ∉ c) :
    splitByte sep (a ++ sep :: (b ++ sep :: c)) = [a, b, c] := by
  rw [splitByte_append _ ha, splitByte_append _ hb, splitByte_not_mem hc]

/-! ### Structure of successful signing runs -/

/-- The 66-byte zero-padded big-endian encoding of a signature
integer, as assembled by `sign_es512`. -/
def paddedBE (n : Nat) : List Nat :=
  List.replicate (66 - (natToBE n).length) 0 ++ natToBE n

/-- Padding a signature integer of at most 66 encoded bytes succeeds
and yields its `paddedBE` form. -/
theorem padTo66_natToBE {n : Nat} (h : (natToBE n).length ≤ 66) :
    padTo66 (natToBE n) = some (paddedBE n) :=
  padTo66_of_le h

/-- The padded encoding is exactly 66 bytes. -/
theorem paddedBE_length {n : Nat} (h : (natToBE n).length ≤ 66) :
    (paddedBE n).length = 66 :=
  padTo66_length h

/-- The padded encoding still denotes the original integer. -/
theorem beToNat_paddedBE (n : Nat) : beToNat (paddedBE n) = n := by
  unfold paddedBE
  rw [beToNat_replicate_zero, beToNat_natToBE]

/-- The padded encoding consists of byte values. -/
theorem paddedBE_mem_lt (n : Nat) : ∀ x ∈ paddedBE n, x < 256 := by
  intro x hx
  rcases List.mem_append.mp hx with h | h
  · have := List.eq_of_mem_replicate h
    omega
  · exact natToBE_mem_lt n x h

/-- On a P-521 key and a successful ECDSA call with in-range signature
integers, `sign_es512` returns the base64url encoding of the padded
132-byte raw signature. -/
theorem sign_es512_eq (o : Openssl) (msg : List Nat) (key : EcKey)
    (r s : Nat) (hcurve : key.curveName = some Nid.SECP521R1)
    (hsig : o.ecdsaSign (o.sha512 msg) key = some (r, s))
    (hr : (natToBE r).length ≤ 66) (hs : (natToBE s).length ≤ 66) :
    sign_es512 o msg key =
      Except.ok (base64_encode (paddedBE r ++ paddedBE s)) := by
  simp only [sign_es512, hcurve, ne_eq, not_true_eq_false, if_false, hsig,
    padTo66_natToBE hr, padTo66_natToBE hs]

/-- The signing input of `get_jws`. -/
def signingInput (hdr : Value) (payload : List Nat) : List Nat :=
  base64_encode (serialize hdr) ++ [46] ++ base64_encode payload

/-- On a P-521 key and a successful ECDSA call with in-range signature
integers, `get_jws` returns the three-segment compact JWS. -/
theorem get_jws_eq (o : Openssl) (hdr : Value) (payload : List Nat)
    (key : EcKey) (r s : Nat)
    (hcurve : key.curveName = some Nid.SECP521R1)
    (hsig : o.ecdsaSign (o.sha512 (signingInput hdr payload)) key =
      some (r, s))
    (hr : (natToBE r).length ≤ 66) (hs : (natToBE s).length ≤ 66) :
    get_jws o hdr payload key =
      Except.ok (base64_encode (serialize hdr) ++ [46] ++
        base64_encode payload ++ [46] ++
        base64_encode (paddedBE r ++ paddedBE s)) := by
  unfold signingInput at hsig
  simp only [get_jws,
    sign_es512_eq o (base64_encode (serialize hdr) ++ [46] ++
      base64_encode payload) key r s hcurve hsig hr hs]

/-- Small numbers are in the P-521 range. -/
theorem lt_two_pow_521 {n : Nat} (h : n < 8) : n < 2 ^ 521 :=
  lt_of_lt_of_le h
    (le_trans (by norm_num : (8 : Nat) ≤ 2 ^ 3)
      (Nat.pow_le_pow_right (by norm_num) (by norm_num)))

/-! ### Concrete instances used by the witness theorems -/

/-- A concrete openssl oracle: a constant digest and the constant
ECDSA output `(5, 7)`. -/
def oTest : Openssl :=
  ⟨fun _ => List.replicate 64 0, fun _ _ => some (5, 7)⟩

/-- A concrete P-521 key handle. -/
def keyTest : EcKey := ⟨some Nid.SECP521R1⟩

/-- A concrete P-256 key handle. -/
def keyP256 : EcKey := ⟨some Nid.X9_62_PRIME256V1⟩

/-! ### Claim theorems -/

/-- C1: for every JWS header value, every payload produced by
serializing a JSON value, and every P-521 key (with the ECDSA call
succeeding and its integers in the P-521 range), `get_jws` returns a
string of the form `base64url(header) . base64url(payload) .
base64url(signature)`: it contains exactly two `.` bytes and splits
into three nonempty segments. -/
theorem get_jws_three_segments (o : Openssl) (hdr v : Value)
    (key : EcKey) (r s : Nat)
    (hcurve : key.curveName = some Nid.SECP521R1)
    (hsig : o.ecdsaSign (o.sha512 (signingInput hdr (serialize v))) key =
      some (r, s))
    (hr : r < 2 ^ 521) (hs : s < 2 ^ 521) :
    ∃ a b c : List Nat,
      get_jws o hdr (serialize v) key = Except.ok (a ++ 46 :: (b ++ 46 :: c)) ∧
      a = base64_encode (serialize hdr) ∧
      b = base64_encode (serialize v) ∧
      c = base64_encode (paddedBE r ++ paddedBE s) ∧
      a ≠ [] ∧ b ≠ [] ∧ c ≠ [] ∧
      (a ++ 46 :: (b ++ 46 :: c)).count 46 = 2 ∧
      splitByte 46 (a ++ 46 :: (b ++ 46 :: c)) = [a, b, c] := by
  have hr66 := natToBE_length_le_66 hr
  have hs66 := natToBE_length_le_66 hs
  refine ⟨base64_encode (serialize hdr), base64_encode (serialize v),
    base64_encode (paddedBE r ++ paddedBE s), ?_, rfl, rfl, rfl, ?_, ?_, ?_, ?_, ?_⟩
  · have := get_jws_eq o hdr (serialize v) key r s hcurve hsig hr66 hs66
    simpa using this
  · exact base64_encode_ne_nil (serialize_ne_nil hdr)
  · exact base64_encode_ne_nil (serialize_ne_nil v)
  · apply base64_encode_ne_nil
    intro hnil
    have h1 : paddedBE r = [] := (List.append_eq_nil.mp hnil).1
    have h2 := paddedBE_length hr66
    rw [h1] at h2
    simp at h2
  · have ca := List.count_eq_zero.mpr (dot_not_mem_base64 (serialize hdr))
    have cb := List.count_eq_zero.mpr (dot_not_mem_base64 (serialize v))
    have cc := List.count_eq_zero.mpr
      (dot_not_mem_base64 (paddedBE r ++ paddedBE s))
    simp [List.count_append, List.count_cons, ca, cb, cc]
  · exact splitByte_three (dot_not_mem_base64 _) (dot_not_mem_base64 _)
      (dot_not_mem_base64 _)

/-- C1 witness. -/
theorem get_jws_three_segments_witness :
    ∃ a b c : List Nat,
      get_jws oTest Value.null (serialize Value.null) keyTest =
        Except.ok (a ++ 46 :: (b ++ 46 :: c)) ∧
      a = base64_encode (serialize Value.null) ∧
      b = base64_encode (serialize Value.null) ∧
      c = base64_encode (paddedBE 5 ++ paddedBE 7) ∧
      a ≠ [] ∧ b ≠ [] ∧ c ≠ [] ∧
      (a ++ 46 :: (b ++ 46 :: c)).count 46 = 2 ∧
      splitByte 46 (a ++ 46 :: (b ++ 46 :: c)) = [a, b, c] :=
  get_jws_three_segments oTest Value.null Value.null keyTest 5 7 rfl rfl
    (lt_two_pow_521 (by decide)) (lt_two_pow_521 (by decide))

/-- C2: whenever the ECDSA call succeeds on a P-521 key with in-range
integers, the signature segment produced by `sign_es512` base64url-
decodes to exactly 132 bytes: the 66-byte zero-padded big-endian
encoding of `r` followed by that of `s`. -/
theorem sign_es512_signature_decodes (o : Openssl) (msg : List Nat)
    (key : EcKey) (r s : Nat)
    (hcurve : key.curveName = some Nid.SECP521R1)
    (hsig : o.ecdsaSign (o.sha512 msg) key = some (r, s))
    (hr : r < 2 ^ 521) (hs : s < 2 ^ 521) :
    ∃ sig : List Nat,
      sign_es512 o msg key = Except.ok sig ∧
      base64_decode sig = some (paddedBE r ++ paddedBE s) ∧
      (paddedBE r ++ paddedBE s).length = 132 ∧
      (paddedBE r).length = 66 ∧ (paddedBE s).length = 66 ∧
      beToNat (paddedBE r) = r ∧ beToNat (paddedBE s) = s := by
  have hr66 := natToBE_length_le_66 hr
  have hs66 := natToBE_length_le_66 hs
  refine ⟨base64_encode (paddedBE r ++ paddedBE s),
    sign_es512_eq o msg key r s hcurve hsig hr66 hs66, ?_, ?_,
    paddedBE_length hr66, paddedBE_length hs66,
    beToNat_paddedBE r, beToNat_paddedBE s⟩
  · apply base64_decode_encode
    intro x hx
    rcases List.mem_append.mp hx with h | h
    · exact paddedBE_mem_lt r x h
    · exact paddedBE_mem_lt s x h
  · rw [List.length_append, paddedBE_length hr66, paddedBE_length hs66]

/-- C2 witness. -/
theorem sign_es512_signature_decodes_witness :
    ∃ sig : List Nat,
      sign_es512 oTest [] keyTest = Except.ok sig ∧
      base64_decode sig = some (paddedBE 5 ++ paddedBE 7) ∧
      (paddedBE 5 ++ paddedBE 7).length = 132 ∧
      (paddedBE 5).length = 66 ∧ (paddedBE 7).length = 66 ∧
      beToNat (paddedBE 5) = 5 ∧ beToNat (paddedBE 7) = 7 :=
  sign_es512_signature_decodes oTest [] keyTest 5 7 rfl rfl
    (lt_two_pow_521 (by decide)) (lt_two_pow_521 (by decide))

/-- C3: on a key whose curve is not P-521, `sign_es512` fails with the
curve-mismatch error without consulting the hash or signing oracles
(its result is the same for every oracle), and `get_jws` propagates
exactly that error. -/
theorem sign_es512_curve_mismatch (o o2 : Openssl) (hdr : Value)
    (payload msg : List Nat) (key : EcKey)
    (h : key.curveName ≠ some Nid.SECP521R1) :
    sign_es512 o msg key = Except.error SignError.curveMismatch ∧
    sign_es512 o msg key = sign_es512 o2 msg key ∧
    get_jws o hdr payload key = Except.error SignError.curveMismatch := by
  have he : ∀ o3 : Openssl, ∀ m : List Nat,
      sign_es512 o3 m key = Except.error SignError.curveMismatch := by
    intro o3 m
    unfold sign_es512
    rw [if_pos h]
  refine ⟨he o msg, (he o msg).trans (he o2 msg).symm, ?_⟩
  simp only [get_jws, he]

/-- C3 witness. -/
theorem sign_es512_curve_mismatch_witness :
    sign_es512 oTest [] keyP256 = Except.error SignError.curveMismatch ∧
    sign_es512 oTest [] keyP256 =
      sign_es512 ⟨fun _ => [], fun _ _ => none⟩ [] keyP256 ∧
    get_jws oTest Value.null [] keyP256 =
      Except.error SignError.curveMismatch :=
  sign_es512_curve_mismatch oTest ⟨fun _ => [], fun _ _ => none⟩ Value.null
    [] [] keyP256 (by decide)

/-- C6: any `r` (or `s`) value whose minimal big-endian encoding fits
in 66 bytes pads to exactly 66 bytes, and the padded bytes read back as
the original integer. -/
theorem padding_preserves_value (r : Nat)
    (h : (natToBE r).length ≤ 66) :
    ∃ p : List Nat, padTo66 (natToBE r) = some p ∧ p.length = 66 ∧
      beToNat p = r :=
  ⟨paddedBE r, padTo66_natToBE h, paddedBE_length h, beToNat_paddedBE r⟩

/-- C6 witness. -/
theorem padding_preserves_value_witness :
    ∃ p : List Nat, padTo66 (natToBE 5) = some p ∧ p.length = 66 ∧
      beToNat p = 5 :=
  padding_preserves_value 5 (by simp [natToBE])

/-- C8: `base64_encode` output uses only the URL-safe alphabet (so
never the padding byte `=`), and a URL-safe decoder tolerating missing
padding recovers the input bytes exactly. -/
theorem base64_encode_roundtrip (b : List Nat) (hb : ∀ x ∈ b, x < 256) :
    (∀ c ∈ base64_encode b, isB64Byte c ∧ c ≠ 61) ∧
    base64_decode (base64_encode b) = some b := by
  refine ⟨fun c hc => ?_, base64_decode_encode b hb⟩
  have := mem_base64_encode_isB64 b c hc
  exact ⟨this, isB64Byte_ne_pad this⟩

/-- C8 witness. -/
theorem base64_encode_roundtrip_witness :
    (∀ c ∈ base64_encode [0, 255, 100], isB64Byte c ∧ c ≠ 61) ∧
    base64_decode (base64_encode [0, 255, 100]) = some [0, 255, 100] :=
  base64_encode_roundtrip [0, 255, 100] (by decide)

/-- C9: the `66 - len` subtractions in the padding step never underflow
when the encodings fit in 66 bytes, so padding cannot fail there; on a
longer encoding the subtraction itself is what fails. -/
theorem padding_subtraction_safety (bytes : List Nat) :
    (bytes.length ≤ 66 →
      checked_sub 66 bytes.length = some (66 - bytes.length) ∧
      padTo66 bytes = some (List.replicate (66 - bytes.length) 0 ++ bytes)) ∧
    (66 < bytes.length →
      checked_sub 66 bytes.length = none ∧ padTo66 bytes = none) := by
  constructor
  · intro h
    exact ⟨by unfold checked_sub; rw [if_pos h], padTo66_of_le h⟩
  · intro h
    exact ⟨by unfold checked_sub; rw [if_neg (by omega)], padTo66_of_gt h⟩

/-- C9 witness: a 66-byte input pads, a 67-byte input underflows. -/
theorem padding_subtraction_safety_witness :
    (checked_sub 66 (List.replicate 66 1).length = some 0 ∧
      padTo66 (List.replicate 66 1) =
        some (List.replicate 0 0 ++ List.replicate 66 1)) ∧
    (checked_sub 66 (List.replicate 67 1).length = none ∧
      padTo66 (List.replicate 67 1) = none) := by
  constructor
  · have := (padding_subtraction_safety (List.replicate 66 1)).1 (by simp)
    simpa using this
  · exact (padding_subtraction_safety (List.replicate 67 1)).2 (by simp)

/-- C4: for every certificate identifier (a UUID rendering: hex digits
and hyphens), the JWS header built in `main` serializes to the compact
bytes of `\x7b"alg":"ES512","kid":"<kid>"\x7d`, with the `alg` field
ahead of the `kid` field. -/
theorem jws_header_serializes (kid : List Nat)
    (h : ∀ b ∈ kid, isUuidByte b) :
    serialize (jws_header kid) =
      strBytes "\x7b\"alg\":\"ES512\",\"kid\":\"" ++ kid ++ strBytes "\"\x7d" := by
  have hk : escapeStr kid = kid :=
    escapeStr_id (fun b hb => escapeByte_id_of_uuid (h b hb))
  have hfields : jws_header kid = Value.obj
      [(strBytes "alg", Value.str (strBytes "ES512")),
       (strBytes "kid", Value.str kid)] := rfl
  rw [hfields]
  simp only [serialize, serializeFields]
  rw [hk]
  simp [strBytes, escapeStr, escapeByte, hexDigit]

/-- C4 witness. -/
theorem jws_header_serializes_witness :
    serialize (jws_header
        (strBytes "11111111-1111-1111-1111-111111111111")) =
      strBytes "\x7b\"alg\":\"ES512\",\"kid\":\"" ++
        strBytes "11111111-1111-1111-1111-111111111111" ++
        strBytes "\"\x7d" :=
  jws_header_serializes (strBytes "11111111-1111-1111-1111-111111111111")
    (by decide)

/-- C5: detaching a compact JWS produced by `get_jws` yields
`segment0 ++ ".." ++ segment2` where the segments are the first and
third `.`-separated segments, so the header and signature bytes are
unchanged. -/
theorem detach_preserves_segments (o : Openssl) (hdr : Value)
    (payload : List Nat) (key : EcKey) (r s : Nat)
    (hcurve : key.curveName = some Nid.SECP521R1)
    (hsig : o.ecdsaSign (o.sha512 (signingInput hdr payload)) key =
      some (r, s))
    (hr : r < 2 ^ 521) (hs : s < 2 ^ 521) :
    ∃ jws s0 s1 s2 : List Nat,
      get_jws o hdr payload key = Except.ok jws ∧
      splitByte 46 jws = [s0, s1, s2] ∧
      detach jws = some (s0 ++ [46, 46] ++ s2) ∧
      s0 = base64_encode (serialize hdr) ∧
      s2 = base64_encode (paddedBE r ++ paddedBE s) := by
  have hr66 := natToBE_length_le_66 hr
  have hs66 := natToBE_length_le_66 hs
  have hjws := get_jws_eq o hdr payload key r s hcurve hsig hr66 hs66
  have hsplit : splitByte 46 (base64_encode (serialize hdr) ++
      46 :: (base64_encode payload ++
        46 :: base64_encode (paddedBE r ++ paddedBE s))) =
      [base64_encode (serialize hdr), base64_encode payload,
       base64_encode (paddedBE r ++ paddedBE s)] :=
    splitByte_three (dot_not_mem_base64 _) (dot_not_mem_base64 _)
      (dot_not_mem_base64 _)
  exact ⟨_, base64_encode (serialize hdr), base64_encode payload,
    base64_encode (paddedBE r ++ paddedBE s), hjws, by simpa using hsplit,
    by simp [detach, hsplit], rfl, rfl⟩

/-- C5 witness. -/
theorem detach_preserves_segments_witness :
    ∃ jws s0 s1 s2 : List Nat,
      get_jws oTest Value.null [] keyTest = Except.ok jws ∧
      splitByte 46 jws = [s0, s1, s2] ∧
      detach jws = some (s0 ++ [46, 46] ++ s2) ∧
      s0 = base64_encode (serialize Value.null) ∧
      s2 = base64_encode (paddedBE 5 ++ paddedBE 7) :=
  detach_preserves_segments oTest Value.null [] keyTest 5 7 rfl rfl
    (lt_two_pow_521 (by decide)) (lt_two_pow_521 (by decide))

/-- C7: the signing input handed to `sign_es512` is exactly the first
two `.`-separated segments of the emitted compact JWS joined by `.`:
the header encoding is byte-identical in both places and the payload is
used verbatim. -/
theorem signing_input_matches_segments (o : Openssl) (hdr : Value)
    (payload : List Nat) (key : EcKey) (r s : Nat)
    (hcurve : key.curveName = some Nid.SECP521R1)
    (hsig : o.ecdsaSign (o.sha512 (signingInput hdr payload)) key =
      some (r, s))
    (hr : r < 2 ^ 521) (hs : s < 2 ^ 521) :
    ∃ jws hseg pseg sseg : List Nat,
      get_jws o hdr payload key = Except.ok jws ∧
      splitByte 46 jws = [hseg, pseg, sseg] ∧
      signingInput hdr payload = hseg ++ 46 :: pseg ∧
      hseg = base64_encode (serialize hdr) ∧
      pseg = base64_encode payload := by
  have hr66 := natToBE_length_le_66 hr
  have hs66 := natToBE_length_le_66 hs
  have hjws := get_jws_eq o hdr payload key r s hcurve hsig hr66 hs66
  have hsplit : splitByte 46 (base64_encode (serialize hdr) ++
      46 :: (base64_encode payload ++
        46 :: base64_encode (paddedBE r ++ paddedBE s))) =
      [base64_encode (serialize hdr), base64_encode payload,
       base64_encode (paddedBE r ++ paddedBE s)] :=
    splitByte_three (dot_not_mem_base64 _) (dot_not_mem_base64 _)
      (dot_not_mem_base64 _)
  exact ⟨_, base64_encode (serialize hdr), base64_encode payload,
    base64_encode (paddedBE r ++ paddedBE s), hjws, by simpa using hsplit,
    by simp [signingInput], rfl, rfl⟩

/-- C7 witness. -/
theorem signing_input_matches_segments_witness :
    ∃ jws hseg pseg sseg : List Nat,
      get_jws oTest Value.null [] keyTest = Except.ok jws ∧
      splitByte 46 jws = [hseg, pseg, sseg] ∧
      signingInput Value.null [] = hseg ++ 46 :: pseg ∧
      hseg = base64_encode (serialize Value.null) ∧
      pseg = base64_encode [] :=
  signing_input_matches_segments oTest Value.null [] keyTest 5 7 rfl rfl
    (lt_two_pow_521 (by decide)) (lt_two_pow_521 (by decide))

/-- C10: every byte emitted by `base64_encode` lies in the URL-safe
alphabet and is never `.`; consequently a compact JWS produced by
`get_jws` splits on `.` into exactly three segments and the detach
step's indexing cannot go out of bounds. -/
theorem base64_never_dot_detach_safe (o : Openssl) (hdr : Value)
    (payload : List Nat) (key : EcKey) (r s : Nat)
    (hcurve : key.curveName = some Nid.SECP521R1)
    (hsig : o.ecdsaSign (o.sha512 (signingInput hdr payload)) key =
      some (r, s))
    (hr : r < 2 ^ 521) (hs : s < 2 ^ 521) :
    (∀ input : List Nat, ∀ c ∈ base64_encode input, isB64Byte c ∧ c ≠ 46) ∧
    ∃ jws : List Nat,
      get_jws o hdr payload key = Except.ok jws ∧
      (splitByte 46 jws).length = 3 ∧ detach jws ≠ none := by
  have hr66 := natToBE_length_le_66 hr
  have hs66 := natToBE_length_le_66 hs
  have hjws := get_jws_eq o hdr payload key r s hcurve hsig hr66 hs66
  have hsplit : splitByte 46 (base64_encode (serialize hdr) ++
      46 :: (base64_encode payload ++
        46 :: base64_encode (paddedBE r ++ paddedBE s))) =
      [base64_encode (serialize hdr), base64_encode payload,
       base64_encode (paddedBE r ++ paddedBE s)] :=
    splitByte_three (dot_not_mem_base64 _) (dot_not_mem_base64 _)
      (dot_not_mem_base64 _)
  refine ⟨fun input c hc => ?_, _, hjws, by simp [hsplit], ?_⟩
  · have := mem_base64_encode_isB64 input c hc
    exact ⟨this, isB64Byte_ne_dot this⟩
  · simp [detach, hsplit]

/-- C10 witness. -/
theorem base64_never_dot_detach_safe_witness :
    (∀ input : List Nat, ∀ c ∈ base64_encode input, isB64Byte c ∧ c ≠ 46) ∧
    ∃ jws : List Nat,
      get_jws oTest Value.null [] keyTest = Except.ok jws ∧
      (splitByte 46 jws).length = 3 ∧ detach jws ≠ none :=
  base64_never_dot_detach_safe oTest Value.null [] keyTest 5 7 rfl rfl
    (lt_two_pow_521 (by decide)) (lt_two_pow_521 (by decide))

end Payouts
